import Mathlib

/-
Verification of the LeetCodeEval pattern-analysis engine.

This file shallowly embeds the classification core of the repository:

  * results/project1_algorithm_scan/simple_pattern_analysis.py
      SimplePatternExtractor (signature catalog, method classifier,
      business-context tagger, method filter) and the aggregation
      expressions of analyze_repository.
  * scripts/scan_industry.py
      IndustryScanner (secondary catalog, whole-file occurrence counts,
      pattern-bearing line counts, per-project scan summary).

Python regular expressions from the two catalogs use only literals,
the classes \s \w . [^c...], the quantifiers * and +, and groups of
literal alternatives.  They are embedded as sequences of tokens
(alternation groups are distributed into one branch per alternative),
and matched by a complete backtracking matcher, so that a pattern
matches some substring exactly when Python re.search reports a match.
Python float arithmetic on the confidence constants 0.3, 0.2, 1.0 is
modelled exactly over the rationals.
-/

namespace LeetCodeEval

/-- Character classes appearing in the catalog regexes: \w, \s, . (any
char except newline), and negated one-char sets like [^)] and [^>]. -/
inductive CharClass where
  | word : CharClass
  | space : CharClass
  | dot : CharClass
  | noneOf : List Char → CharClass
deriving DecidableEq, Repr

/-- Test of a character class against one character, following Python
re semantics restricted to ASCII text (\w is [A-Za-z0-9_], \s is ASCII
whitespace, . is any character except the newline). -/
def CharClass.test : CharClass → Char → Bool
  | .word, c => c.isAlphanum || c == '_'
  | .space, c =>
      c == ' ' || c == '\t' || c == '\n' || c == '\r' || c == '\x0b' || c == '\x0c'
  | .dot, c => c != '\n'
  | .noneOf cs, c => !(cs.contains c)

/-- One token of an embedded regex branch: a literal character, a
single character-class occurrence, or a greedy zero-or-more repetition
of a character class.  Every * and + in the two catalogs applies to a
single character class, so this token language covers them all
(x+ is embedded as the two tokens [one x, many x]). -/
inductive Tok where
  | lit : Char → Tok
  | one : CharClass → Tok
  | many : CharClass → Tok
deriving DecidableEq, Repr

/-- A branch is a token sequence; alternation groups of the source
regexes are distributed, so a signature is a list of branches tried in
order, exactly as the Python engine tries alternatives in order. -/
abbrev Branch := List Tok

abbrev Sig := List Branch

/-- Literal-character comparison; with the ignore-case flag set it
compares the lower-cased characters, modelling re.IGNORECASE on ASCII. -/
def charMatches (ci : Bool) (pat input : Char) : Bool :=
  if ci then pat.toLower == input.toLower else pat == input

/-- Length of the maximal prefix of the input consisting of characters
of the class: the most characters a greedy repetition of the class can
consume. -/
def runLen (cc : CharClass) : List Char → Nat
  | [] => 0
  | x :: xs => if cc.test x then runLen cc xs + 1 else 0

/-- Backtracking over the repetition count of a greedy star: try
consuming j characters, then j - 1, ..., down to 0, and return the
first success, offset by the number of characters consumed.  f is the
matcher for the rest of the branch. -/
def tryStar (f : List Char → Option Nat) : Nat → List Char → Option Nat
  | 0, s => f s
  | j + 1, s =>
      match (f (s.drop (j + 1))).map (· + (j + 1)) with
      | some n => some n
      | none => tryStar f j s

/-- Greedy backtracking match of a branch against a prefix of the
input, returning the number of characters consumed by the leftmost
greedy match (Python semantics), or none if no match starts here.
A greedy star over a character class can consume any number of
characters up to the maximal class run; all counts are tried from the
largest down, so the result is some length exactly when any match
starts here, and the length is the one the Python engine reports. -/
def branchLen (ci : Bool) : List Tok → List Char → Option Nat
  | [], _ => some 0
  | Tok.lit c :: ts, x :: xs =>
      if charMatches ci c x then (branchLen ci ts xs).map (· + 1) else none
  | Tok.one cc :: ts, x :: xs =>
      if cc.test x then (branchLen ci ts xs).map (· + 1) else none
  | Tok.many cc :: ts, s => tryStar (branchLen ci ts) (runLen cc s) s
  | _ :: _, [] => none

/-- Length of the match of a signature starting at the head of the
input: the branches (regex alternatives) are tried in order and the
first that matches wins, as in the Python engine. -/
def sigLen (ci : Bool) (sig : Sig) (s : List Char) : Option Nat :=
  sig.findSome? (fun b => branchLen ci b s)

/-- Boolean re.search of one signature: does a match start at some
position of the text. -/
def sigSearch (ci : Bool) (sig : Sig) : List Char → Bool
  | [] => (sigLen ci sig []).isSome
  | x :: xs => (sigLen ci sig (x :: xs)).isSome || sigSearch ci sig xs

/-- Worker for findallCount, recursing on a fuel that starts at the
length of the text; every step consumes at least one character of the
text, so the fuel never runs out on the initial call. -/
def findallAux (ci : Bool) (sig : Sig) : Nat → List Char → Nat
  | _, [] => if (sigLen ci sig []).isSome then 1 else 0
  | 0, _ :: _ => 0
  | fuel + 1, x :: xs =>
      match sigLen ci sig (x :: xs) with
      | none => findallAux ci sig fuel xs
      | some 0 => 1 + findallAux ci sig fuel xs
      | some (n + 1) => 1 + findallAux ci sig fuel (xs.drop n)

/-- Number of non-overlapping matches of a signature in the text,
modelling len(re.findall(regex, content)): scan left to right, count a
match and resume after it (after one character for an empty match). -/
def findallCount (ci : Bool) (sig : Sig) (s : List Char) : Nat :=
  findallAux ci sig s.length s

-- Shorthands for the token fragments the catalogs use.

/-- Tokens of a literal regex fragment (each character matched verbatim). -/
def lits (s : String) : List Tok := s.data.map Tok.lit

/-- Embedding of the regex fragment of zero or more whitespace characters. -/
def ws0 : List Tok := [Tok.many CharClass.space]

/-- Embedding of the regex fragment of one or more whitespace characters. -/
def ws1 : List Tok := [Tok.one CharClass.space, Tok.many CharClass.space]

/-- Embedding of the regex fragment of zero or more word characters. -/
def w0 : List Tok := [Tok.many CharClass.word]

/-- Embedding of the regex fragment of one or more word characters. -/
def w1 : List Tok := [Tok.one CharClass.word, Tok.many CharClass.word]

/-- Embedding of the regex fragment consuming one or more characters other
than a closing parenthesis. -/
def notRparen1 : List Tok := [Tok.one (CharClass.noneOf [')']), Tok.many (CharClass.noneOf [')'])]

/-- Embedding of the regex fragment consuming zero or more characters other
than a closing parenthesis. -/
def notRparen0 : List Tok := [Tok.many (CharClass.noneOf [')'])]

/-- Embedding of the regex fragment consuming one or more characters other
than a closing angle bracket. -/
def notGt1 : List Tok := [Tok.one (CharClass.noneOf ['>']), Tok.many (CharClass.noneOf ['>'])]

-- Signature catalog of SimplePatternExtractor (simple_pattern_analysis.py,
-- lines 13-53), one definition per category, one branch per alternative.

-- regexes of category array_manipulation
def am_sigs : List Sig :=
  [ -- for\s*\([^)]*\s*:\s*\w+\[\]
    [lits "for" ++ ws0 ++ lits "(" ++ notRparen0 ++ ws0 ++ lits ":" ++ ws0 ++ w1 ++ lits "[]"],
    -- \w+\[\s*\w+\s*\]\s*=
    [w1 ++ lits "[" ++ ws0 ++ w1 ++ ws0 ++ lits "]" ++ ws0 ++ lits "="],
    -- Arrays\.(sort|binarySearch|copyOf)
    [lits "Arrays.sort", lits "Arrays.binarySearch", lits "Arrays.copyOf"],
    -- new\s+\w+\[\s*\w*\s*\]
    [lits "new" ++ ws1 ++ w1 ++ lits "[" ++ ws0 ++ w0 ++ ws0 ++ lits "]"] ]

-- regexes of category string_processing
def sp_sigs : List Sig :=
  [ -- String\w*\.(substring|indexOf|replace|split|matches)
    [lits "String" ++ w0 ++ lits ".substring",
     lits "String" ++ w0 ++ lits ".indexOf",
     lits "String" ++ w0 ++ lits ".replace",
     lits "String" ++ w0 ++ lits ".split",
     lits "String" ++ w0 ++ lits ".matches"],
    -- StringBuilder\s*\w+\s*=\s*new\s*StringBuilder
    [lits "StringBuilder" ++ ws0 ++ w1 ++ ws0 ++ lits "=" ++ ws0 ++ lits "new" ++ ws0 ++
      lits "StringBuilder"],
    -- Pattern\.(compile|matches)
    [lits "Pattern.compile", lits "Pattern.matches"],
    -- \.toString\(\)
    [lits ".toString()"] ]

-- regexes of category hash_map_operations
def hm_sigs : List Sig :=
  [ -- HashMap<[^>]+>\s*\w+\s*=\s*new\s*HashMap
    [lits "HashMap<" ++ notGt1 ++ lits ">" ++ ws0 ++ w1 ++ ws0 ++ lits "=" ++ ws0 ++
      lits "new" ++ ws0 ++ lits "HashMap"],
    -- Map<[^>]+>\s*\w+
    [lits "Map<" ++ notGt1 ++ lits ">" ++ ws0 ++ w1],
    -- \w+\.put\s*\(
    [w1 ++ lits ".put" ++ ws0 ++ lits "("],
    -- \w+\.get\s*\(
    [w1 ++ lits ".get" ++ ws0 ++ lits "("],
    -- \w+\.containsKey\s*\(
    [w1 ++ lits ".containsKey" ++ ws0 ++ lits "("] ]

-- regexes of category mathematical_computation
def mc_sigs : List Sig :=
  [ -- Math\.(max|min|abs|pow|sqrt)
    [lits "Math.max", lits "Math.min", lits "Math.abs", lits "Math.pow", lits "Math.sqrt"],
    -- BigDecimal\s+\w+
    [lits "BigDecimal" ++ ws1 ++ w1],
    -- Random\s+\w+\s*=\s*new
    [lits "Random" ++ ws1 ++ w1 ++ ws0 ++ lits "=" ++ ws0 ++ lits "new"],
    -- calculate\w*\s*\(
    [lits "calculate" ++ w0 ++ ws0 ++ lits "("],
    -- compute\w*\s*\(
    [lits "compute" ++ w0 ++ ws0 ++ lits "("] ]

-- regexes of category sorting_searching
def ss_sigs : List Sig :=
  [ -- Collections\.sort\s*\(
    [lits "Collections.sort" ++ ws0 ++ lits "("],
    -- Arrays\.sort\s*\(
    [lits "Arrays.sort" ++ ws0 ++ lits "("],
    -- Comparator<[^>]+>
    [lits "Comparator<" ++ notGt1 ++ lits ">"],
    -- \.stream\(\).*\.sorted\(
    [lits ".stream()" ++ [Tok.many CharClass.dot] ++ lits ".sorted("],
    -- binarySearch
    [lits "binarySearch"] ]

-- regexes of category validation_logic
def vl_sigs : List Sig :=
  [ -- validate\w*\s*\(
    [lits "validate" ++ w0 ++ ws0 ++ lits "("],
    -- if\s*\([^)]*null[^)]*\)
    [lits "if" ++ ws0 ++ lits "(" ++ notRparen0 ++ lits "null" ++ notRparen0 ++ lits ")"],
    -- throw\s+new\s+\w*Exception
    [lits "throw" ++ ws1 ++ lits "new" ++ ws1 ++ w0 ++ lits "Exception"],
    -- assert\w*\s*\(
    [lits "assert" ++ w0 ++ ws0 ++ lits "("] ]

/-- The self.patterns catalog of SimplePatternExtractor, in the
insertion (hence iteration) order of the Python dict. -/
def patterns : List (String × List Sig) :=
  [("array_manipulation", am_sigs),
   ("string_processing", sp_sigs),
   ("hash_map_operations", hm_sigs),
   ("mathematical_computation", mc_sigs),
   ("sorting_searching", ss_sigs),
   ("validation_logic", vl_sigs)]

-- Signature catalog of IndustryScanner (scan_industry.py, lines 9-35).

-- regexes of category hash_map (identical to hash_map_operations above)
def scan_hash_map_sigs : List Sig := hm_sigs

-- regexes of category sorting
def scan_sorting_sigs : List Sig :=
  [ [lits "Collections.sort" ++ ws0 ++ lits "("],
    [lits "Arrays.sort" ++ ws0 ++ lits "("],
    [lits ".stream()" ++ [Tok.many CharClass.dot] ++ lits ".sorted("],
    -- Comparator\.
    [lits "Comparator."] ]

-- regexes of category string_ops
def scan_string_ops_sigs : List Sig :=
  [ [lits "String" ++ w0 ++ lits ".substring",
     lits "String" ++ w0 ++ lits ".indexOf",
     lits "String" ++ w0 ++ lits ".replace",
     lits "String" ++ w0 ++ lits ".split",
     lits "String" ++ w0 ++ lits ".matches"],
    -- StringBuilder
    [lits "StringBuilder"],
    -- Pattern\.compile
    [lits "Pattern.compile"] ]

-- regexes of category tree_graph
def scan_tree_graph_sigs : List Sig :=
  [ -- class\s+\w*Node
    [lits "class" ++ ws1 ++ w0 ++ lits "Node"],
    -- class\s+\w*Tree
    [lits "class" ++ ws1 ++ w0 ++ lits "Tree"],
    -- traverse\w*\(
    [lits "traverse" ++ w0 ++ lits "("] ]

/-- The self.patterns catalog of IndustryScanner, in dict order. -/
def scan_patterns : List (String × List Sig) :=
  [("hash_map", scan_hash_map_sigs),
   ("sorting", scan_sorting_sigs),
   ("string_ops", scan_string_ops_sigs),
   ("tree_graph", scan_tree_graph_sigs)]

-- SimplePatternExtractor: classifier, context tagger, method filter
-- (simple_pattern_analysis.py, lines 64-118).

/-- The leetcode_mapping table of SimplePatternExtractor (lines 55-62). -/
def leetcode_mapping : List (String × List String) :=
  [("array_manipulation",
      ["Two Sum", "Best Time to Buy and Sell Stock", "Rotate Array"]),
   ("string_processing",
      ["Valid Anagram", "Longest Substring Without Repeating Characters", "Valid Parentheses"]),
   ("hash_map_operations", ["Two Sum", "Group Anagrams", "Top K Frequent Elements"]),
   ("mathematical_computation", ["Pow(x, n)", "Sqrt(x)", "Happy Number"]),
   ("sorting_searching",
      ["Merge Intervals", "Search in Rotated Sorted Array", "Kth Largest Element"]),
   ("validation_logic", ["Valid Parentheses", "Valid Sudoku", "Valid Binary Search Tree"])]

/-- Python dict .get(key, default here the empty list) over an
association list. -/
def lookupLeet (ty : String) : List String :=
  ((leetcode_mapping.find? (fun e => e.1 == ty)).map Prod.snd).getD []

/-- One record appended by SimplePatternExtractor.extract_from_file
(lines 83-92).  Confidence is a rational modelling the Python float. -/
structure ClassificationRecord where
  file : String
  method : String
  pattern_type : String
  confidence : ℚ
  «matches» : Nat
  business_context : String
  leetcode_problems : List String
  code_snippet : String
deriving DecidableEq, Repr

/-- The business_keywords vocabulary of _get_business_context (lines
113-114), in source order. -/
def business_keywords : List String :=
  ["invoice", "payment", "balance", "account", "transaction",
   "settlement", "card", "loan", "savings", "transfer", "financial"]

/-- Python str.lower, character by character (ASCII-faithful). -/
def pyLower (s : String) : String := ⟨s.data.map Char.toLower⟩

/-- Test of the Python substring operator: needle occurs contiguously
at the head of hay. -/
def leadsWith : List Char → List Char → Bool
  | [], _ => true
  | _ :: _, [] => false
  | a :: as, b :: bs => a == b && leadsWith as bs

/-- Test of the Python substring operator (kw in path_lower): needle
occurs contiguously somewhere in hay. -/
def isSub (n : List Char) : List Char → Bool
  | [] => leadsWith n []
  | b :: bs => leadsWith n (b :: bs) || isSub n bs

/-- The separator-joining of Python ", ".join(contexts). -/
def joinComma : List String → String
  | [] => ""
  | [s] => s
  | s :: rest => s ++ ", " ++ joinComma rest

/-- SimplePatternExtractor._get_business_context (lines 112-118):
lower-case the path, keep the vocabulary terms occurring in it (in
vocabulary order) and join them with a comma, or return the literal
general when none occurs. -/
def _get_business_context (filepath : String) : String :=
  let path_lower := pyLower filepath
  let contexts := business_keywords.filter (fun kw => isSub kw.data path_lower.data)
  if contexts.isEmpty then "general" else joinComma contexts

/-- The code_snippet field (line 91): the method code truncated to 200
characters with an ellipsis marker when longer than 200. -/
def snippetOf (code : String) : String :=
  if 200 < code.data.length then ⟨code.data.take 200⟩ ++ "..." else code

/-- The matches counter of the classifier loop (lines 74-77): the
number of signatures of one category for which case-insensitive
re.search finds a match in the method code. -/
def countMatching (sigs : List Sig) (code : List Char) : Nat :=
  sigs.foldl (fun m sig => if sigSearch true sig code then m + 1 else m) 0

/-- The record literal appended at lines 83-92, with the confidence
formula of line 80: min of 0.3 plus 0.2 per matching signature, and 1. -/
def mkRecord (filepath method_name pattern_type : String) (k : Nat) (code : String) :
    ClassificationRecord :=
  { file := filepath
    method := method_name
    pattern_type := pattern_type
    confidence := min ((3 : ℚ)/10 + (k : ℚ) * (2/10)) 1
    «matches» := k
    business_context := _get_business_context filepath
    leetcode_problems := (lookupLeet pattern_type).take 3
    code_snippet := snippetOf code }

/-- The inner loop of extract_from_file over the catalog (lines 72-92)
for one extracted method: for each category in catalog order, count
the matching signatures and append one record when the count is
positive. -/
def classifyMethod (catalog : List (String × List Sig)) (filepath method_name code : String) :
    List ClassificationRecord :=
  catalog.flatMap (fun c =>
    if 0 < countMatching c.2 code.data then
      [mkRecord filepath method_name c.1 (countMatching c.2 code.data) code]
    else [])

/-- Python whitespace set of str.strip (ASCII fragment). -/
def pyIsSpace (c : Char) : Bool :=
  c == ' ' || c == '\t' || c == '\n' || c == '\r' || c == '\x0b' || c == '\x0c'

/-- Python str.strip: drop whitespace from both ends. -/
def pyStrip (s : List Char) : List Char :=
  ((s.dropWhile pyIsSpace).reverse.dropWhile pyIsSpace).reverse

/-- Insertion into a Python dict viewed as an association list: a
present key keeps its position and gets the new value, an absent key
is appended at the end. -/
def dictInsert (k v : String) : List (String × String) → List (String × String)
  | [] => [(k, v)]
  | (k', v') :: rest =>
      if k' == k then (k', v) :: rest else (k', v') :: dictInsert k v rest

/-- SimplePatternExtractor._extract_methods (lines 98-110) given the
sequence of (group 3, group 4) captures produced by re.finditer with
the method-declaration regex: keep into the methods dict only bodies
whose stripped length exceeds 20 characters.  The finditer captures
are passed as input; the method-boundary regex itself is the
collaborating engine. -/
def _extract_methods (raw : List (String × String)) : List (String × String) :=
  raw.foldl
    (fun methods m =>
      if 20 < (pyStrip m.2.data).length then dictInsert m.1 m.2 methods else methods)
    []

/-- SimplePatternExtractor.extract_from_file (lines 64-96): a failed
read (the except branch) yields the empty record list; otherwise every
extracted method is classified against the catalog.  finditer stands
for the method-declaration regex scan over the file content. -/
def extract_from_file (filepath : String) (readResult : Option String)
    (finditer : String → List (String × String)) : List ClassificationRecord :=
  match readResult with
  | none => []
  | some content =>
      (_extract_methods (finditer content)).flatMap
        (fun m => classifyMethod patterns filepath m.1 m.2)

-- Aggregation expressions of analyze_repository
-- (simple_pattern_analysis.py, lines 150-170).

/-- The confidence_stats dictionary (lines 150-154): counts of records
with confidence above 0.7 (high), between 0.5 and 0.7 inclusive
(medium), and below 0.5 (low). -/
def confidence_stats (l : List ClassificationRecord) : Nat × Nat × Nat :=
  (l.countP (fun p => decide ((7 : ℚ)/10 < p.confidence)),
   l.countP (fun p => decide ((1 : ℚ)/2 ≤ p.confidence ∧ p.confidence ≤ 7/10)),
   l.countP (fun p => decide (p.confidence < (1 : ℚ)/2)))

/-- The descending-by-confidence comparison of the sort of line 170
(reverse=True on the confidence key). -/
def confGe (a b : ClassificationRecord) : Bool := decide (b.confidence ≤ a.confidence)

/-- The top_patterns_by_confidence entry of the summary (line 170):
sort by confidence descending — Python sorted is a stable sort, and
with reverse=True records of equal confidence keep their input
order — and keep the first 10. -/
def top_patterns_by_confidence (l : List ClassificationRecord) : List ClassificationRecord :=
  (l.mergeSort confGe).take 10

-- IndustryScanner (scan_industry.py, lines 37-111).

/-- Per-project tally (scan_industry.py, lines 58-63). -/
structure ProjResult where
  project_id : String
  total_files : Nat
  patterns : List (String × Nat)
  pattern_loc : Nat
deriving DecidableEq, Repr

/-- Corpus-wide scan summary (scan_industry.py, lines 38-44). -/
structure ScanSummary where
  total_projects : Nat
  total_files : Nat
  total_patterns : List (String × Nat)
  total_pattern_loc : Nat
  projects : List ProjResult
deriving DecidableEq, Repr

/-- The zero-initialised summary of lines 38-44. -/
def init_summary : ScanSummary :=
  { total_projects := 0
    total_files := 0
    total_patterns := scan_patterns.map (fun c => (c.1, 0))
    total_pattern_loc := 0
    projects := [] }

/-- The zero-initialised per-project tally of lines 58-63. -/
def initProj (pid : String) : ProjResult :=
  { project_id := pid
    total_files := 0
    patterns := scan_patterns.map (fun c => (c.1, 0))
    pattern_loc := 0 }

/-- Add n to the entry of key k of a counters dict (the keys are the
catalog categories and are always present). -/
def bumpPat (k : String) (n : Nat) : List (String × Nat) → List (String × Nat)
  | [] => []
  | (k', v) :: rest =>
      if k' == k then (k', v + n) :: rest else (k', v) :: bumpPat k n rest

/-- Lookup in a counters dict (key always present; defaults to 0). -/
def lookupPat (d : List (String × Nat)) (k : String) : Nat :=
  ((d.find? (fun e => e.1 == k)).map Prod.snd).getD 0

/-- Does some signature of some category match the line?  The nested
find- loops of lines 99-107 stop at the first matching
category/signature, which is exactly the short-circuit of any. -/
def lineHasPattern (line : List Char) : Bool :=
  scan_patterns.any (fun c => c.2.any (fun sig => sigSearch false sig line))

/-- The pattern-LOC loop of scan_file (lines 96-108): one increment
per line that has a matching signature, however many signatures or
categories match on it. -/
def pattern_loc_lines (lines : List (List Char)) : Nat :=
  lines.foldl (fun loc line => if lineHasPattern line then loc + 1 else loc) 0

/-- Python str.splitlines restricted to the ASCII line boundaries
newline, carriage return, and carriage return plus newline. -/
def splitlinesAux : List Char → List Char → List (List Char)
  | [], acc => if acc.isEmpty then [] else [acc.reverse]
  | '\r' :: '\n' :: rest, acc => acc.reverse :: splitlinesAux rest []
  | '\n' :: rest, acc => acc.reverse :: splitlinesAux rest []
  | '\r' :: rest, acc => acc.reverse :: splitlinesAux rest []
  | c :: rest, acc => splitlinesAux rest (c :: acc)

/-- Python content.splitlines() (line 96). -/
def pySplitlines (content : String) : List (List Char) := splitlinesAux content.data []

/-- The per-category occurrence counting of scan_file (lines 85-89):
for every category and signature, count all matches in the whole
content (case-sensitively: no ignore-case flag at line 87) and add
positive counts to the per-project tally. -/
def scanFileCounts (content : List Char) (proj : ProjResult) : ProjResult :=
  scan_patterns.foldl
    (fun pr c =>
      c.2.foldl
        (fun pr sig =>
          let m := findallCount false sig content
          if 0 < m then { pr with patterns := bumpPat c.1 m pr.patterns } else pr)
        pr)
    proj

/-- IndustryScanner.scan_file (lines 79-111): a failed read leaves the
tally untouched (the except branch swallows the error); otherwise the
whole-file occurrence counts and the pattern-bearing line count are
accumulated into the project tally. -/
def scan_file (readResult : Option String) (proj : ProjResult) : ProjResult :=
  match readResult with
  | none => proj
  | some content =>
      let proj := scanFileCounts content.data proj
      { proj with
          pattern_loc := proj.pattern_loc + pattern_loc_lines (pySplitlines content) }

/-- Python str.endswith via suffix test on the character lists. -/
def pyEndsWith (s suffix : String) : Bool := suffix.data.isSuffixOf s.data

/-- The dict comprehension of line 74: per-category sums of two
counters dicts, over the catalog keys. -/
def addPats (a b : List (String × Nat)) : List (String × Nat) :=
  scan_patterns.map (fun c => (c.1, lookupPat a c.1 + lookupPat b c.1))

/-- IndustryScanner.scan_directory (lines 37-77).  The directory
listing stands for os.listdir: none models FileNotFoundError (the
only caught error, reported by the printed message and answered with
the zero summary), some gives the subdirectories, each with the file
names and read results its os.walk yields.  The second component
collects the printed messages. -/
def scan_directory (root_dir : String)
    (listing : Option (List (String × List (String × Option String)))) :
    ScanSummary × List String :=
  match listing with
  | none => (init_summary, ["Directory not found: " ++ root_dir])
  | some subdirs =>
      subdirs.enum.foldl
        (fun acc e =>
          let project_id := "Project " ++ toString (e.1 + 1)
          let msgs := acc.2 ++ ["Scanning " ++ e.2.1 ++ " as " ++ project_id ++ "..."]
          let walked := e.2.2.foldl
            (fun (st : ProjResult × ScanSummary) f =>
              if pyEndsWith f.1 ".java" then
                ({ scan_file f.2 st.1 with total_files := st.1.total_files + 1 },
                 { st.2 with total_files := st.2.total_files + 1 })
              else st)
            (initProj project_id, acc.1)
          let proj := walked.1
          let summary := walked.2
          ({ summary with
              projects := summary.projects ++ [proj]
              total_projects := summary.total_projects + 1
              total_patterns := addPats summary.total_patterns proj.patterns
              total_pattern_loc := summary.total_pattern_loc + proj.pattern_loc },
           msgs))
        (init_summary, [])

-- General lemmas about the classification loops.

theorem pattern_loc_foldl (lines : List (List Char)) (n : Nat) :
    lines.foldl (fun loc line => if lineHasPattern line then loc + 1 else loc) n =
      n + lines.countP lineHasPattern := by
  induction lines generalizing n with
  | nil => simp
  | cons l ls ih =>
    simp only [List.foldl_cons, List.countP_cons, ih]
    by_cases h : lineHasPattern l
    all_goals simp [h]
    all_goals omega

theorem pattern_loc_lines_eq_countP (lines : List (List Char)) :
    pattern_loc_lines lines = lines.countP lineHasPattern := by
  simpa using pattern_loc_foldl lines 0

/-- A line of Java on which two categories of the scanner catalog both
match (hash_map via the put call, sorting via Collections.sort). -/
def twoCatLine : String := "m.put(x); Collections.sort(l);"

/-- Claim C4: the pattern-bearing line counter of IndustryScanner.scan_file
adds at most 1 per physical line: appending one line to the content
raises pattern_loc by exactly 1 when any signature of any category
matches it and 0 otherwise, however many categories or signatures
match, so the count never exceeds the number of lines; on a concrete
line matched by both the hash_map and the sorting categories the
counter still adds exactly 1. -/
theorem pattern_loc_at_most_one_per_line :
    (∀ (lines : List (List Char)) (line : List Char),
      pattern_loc_lines (lines ++ [line]) =
        pattern_loc_lines lines + (if lineHasPattern line then 1 else 0)) ∧
    (∀ lines : List (List Char), pattern_loc_lines lines ≤ lines.length) ∧
    lineHasPattern twoCatLine.data = true ∧
    scan_hash_map_sigs.any (fun sig => sigSearch false sig twoCatLine.data) = true ∧
    scan_sorting_sigs.any (fun sig => sigSearch false sig twoCatLine.data) = true ∧
    pattern_loc_lines [twoCatLine.data] = 1 := by
  refine ⟨?_, ?_, by decide, by decide, by decide, by decide⟩
  · intro lines line
    simp only [pattern_loc_lines_eq_countP, List.countP_append, List.countP_cons,
      List.countP_nil]
    by_cases h : lineHasPattern line <;> simp [h]
  · intro lines
    rw [pattern_loc_lines_eq_countP]
    exact List.countP_le_length _

/-- Claim C8: a failed file read is swallowed: the method extractor yields
the empty record list (zero methods, zero patterns) and the line-level
scanner leaves the project tally untouched, so no per-file failure
propagates. -/
theorem read_failure_swallowed :
    ∀ (fp : String) (finditer : String → List (String × String)) (proj : ProjResult),
      extract_from_file fp none finditer = [] ∧ scan_file none proj = proj :=
  fun _ _ _ => ⟨rfl, rfl⟩

/-- Claim C9 counterexample: an existing root with no subdirectories
is not reported at all.  On the root the script passes, an empty
listing yields the all-zero summary together with zero printed
messages, not the one report the claim requires for the empty case;
only the missing root (the caught FileNotFoundError) produces the one
report. -/
theorem empty_root_not_reported_counterexample :
    scan_directory "industry-repos" (some []) = (init_summary, []) ∧
    ((scan_directory "industry-repos" (some [])).2).length = 0 ∧
    ((scan_directory "industry-repos" none).2).length = 1 ∧
    (0 : Nat) ≠ 1 :=
  ⟨rfl, rfl, rfl, by decide⟩

/-- Claim C9 amended: a missing root directory (the caught
FileNotFoundError) is reported exactly once at the top level and
answered with the all-zero summary; an existing root with no
subdirectories is answered silently — no report — with the same
all-zero summary; neither case raises.  The zero summary has zero
projects, zero files, zero pattern lines and a zero count for every
category. -/
theorem missing_root_reported_empty_root_silent :
    ∀ root_dir : String,
      scan_directory root_dir none =
        (init_summary, ["Directory not found: " ++ root_dir]) ∧
      scan_directory root_dir (some []) = (init_summary, []) ∧
      init_summary.total_projects = 0 ∧
      init_summary.total_files = 0 ∧
      init_summary.total_pattern_loc = 0 ∧
      init_summary.projects = [] ∧
      init_summary.total_patterns =
        [("hash_map", 0), ("sorting", 0), ("string_ops", 0), ("tree_graph", 0)] :=
  fun _ => ⟨rfl, rfl, rfl, rfl, rfl, rfl, rfl⟩

-- The method filter of _extract_methods.

theorem dictInsert_mem {k v : String} {d : List (String × String)} {e : String × String}
    (h : e ∈ dictInsert k v d) : e = (k, v) ∨ e ∈ d := by
  induction d with
  | nil => simpa [dictInsert] using h
  | cons hd tl ih =>
    simp only [dictInsert] at h
    split at h
    · rcases List.mem_cons.mp h with h1 | h1
      · rename_i heq
        left
        rw [h1]
        have : hd.1 = k := by simpa using heq
        rw [this]
      · right
        exact List.mem_cons_of_mem _ h1
    · rcases List.mem_cons.mp h with h1 | h1
      · right
        rw [h1]
        exact List.mem_cons_self _ _
      · rcases ih h1 with h2 | h2
        · exact Or.inl h2
        · exact Or.inr (List.mem_cons_of_mem _ h2)

theorem extract_loop_inv (raw : List (String × String)) (acc : List (String × String))
    (hacc : ∀ m ∈ acc, 20 < (pyStrip m.2.data).length) :
    ∀ m ∈ raw.foldl
        (fun methods mm =>
          if 20 < (pyStrip mm.2.data).length then dictInsert mm.1 mm.2 methods else methods)
        acc,
      20 < (pyStrip m.2.data).length := by
  induction raw generalizing acc with
  | nil => exact hacc
  | cons hd tl ih =>
    intro m hm
    simp only [List.foldl_cons] at hm
    by_cases h : 20 < (pyStrip hd.2.data).length
    · rw [if_pos h] at hm
      refine ih (dictInsert hd.1 hd.2 acc) ?_ m hm
      intro e he
      rcases dictInsert_mem he with h1 | h1
      · rw [h1]; exact h
      · exact hacc e h1
    · rw [if_neg h] at hm
      exact ih acc hacc m hm

/-- Claim C6: every method body kept by the extractor filter has a stripped
length strictly greater than 20 characters; trivial bodies are
discarded and so produce no ClassificationRecord. -/
theorem extracted_bodies_nontrivial :
    ∀ (raw : List (String × String)) (nm body : String),
      (nm, body) ∈ _extract_methods raw → 20 < (pyStrip body.data).length := by
  intro raw nm body h
  simpa using extract_loop_inv raw [] (by simp) (nm, body) h

/-- A finditer capture list with one trivial method (the nine
character body of Scenario 2) and one real method. -/
def c6raw : List (String × String) :=
  [("trivial", "return x;"), ("real", "int s = 0; s = s + 1; s = s + 2; return s;")]

theorem extracted_bodies_nontrivial_witness :
    20 < (pyStrip "int s = 0; s = s + 1; s = s + 2; return s;".data).length :=
  extracted_bodies_nontrivial c6raw "real" "int s = 0; s = s + 1; s = s + 2; return s;"
    (by decide)

-- Structure of the classifier output.

theorem classifyMethod_types {cats : List (String × List Sig)} {fp nm code : String}
    {r : ClassificationRecord} (h : r ∈ classifyMethod cats fp nm code) :
    r.pattern_type ∈ cats.map Prod.fst := by
  simp only [classifyMethod, List.mem_flatMap] at h
  obtain ⟨c, hc, hr⟩ := h
  split at hr
  · have := List.mem_singleton.mp hr
    rw [this]
    exact List.mem_map.mpr ⟨c, hc, rfl⟩
  · cases hr

theorem classifyMethod_record_shape {cats : List (String × List Sig)} {fp nm code : String}
    {r : ClassificationRecord} (h : r ∈ classifyMethod cats fp nm code) :
    ∃ ty k, 0 < k ∧ r = mkRecord fp nm ty k code := by
  simp only [classifyMethod, List.mem_flatMap] at h
  obtain ⟨c, hc, hr⟩ := h
  split at hr
  · exact ⟨c.1, countMatching c.2 code.data, by assumption, List.mem_singleton.mp hr⟩
  · cases hr

theorem classifyMethod_filter (cats : List (String × List Sig)) (fp nm code : String)
    (hnd : (cats.map Prod.fst).Nodup) :
    ∀ ty sigs, (ty, sigs) ∈ cats →
      (classifyMethod cats fp nm code).filter (fun r => r.pattern_type == ty) =
        if 0 < countMatching sigs code.data then
          [mkRecord fp nm ty (countMatching sigs code.data) code]
        else [] := by
  induction cats with
  | nil => intro ty sigs h; cases h
  | cons c rest ih =>
    obtain ⟨ty', sigs'⟩ := c
    intro ty sigs hmem
    have hclass : classifyMethod ((ty', sigs') :: rest) fp nm code =
        (if 0 < countMatching sigs' code.data then
          [mkRecord fp nm ty' (countMatching sigs' code.data) code]
         else []) ++ classifyMethod rest fp nm code := by
      simp [classifyMethod]
    rw [hclass, List.filter_append]
    have hnd' := List.nodup_cons.mp hnd
    rcases List.mem_cons.mp hmem with heq | htl
    · injection heq.symm with h1 h2
      rw [h1, h2]
      have hrest : (classifyMethod rest fp nm code).filter
          (fun r => r.pattern_type == ty) = [] := by
        rw [List.filter_eq_nil_iff]
        intro r hr
        have hin := classifyMethod_types hr
        have hout : ty ∉ rest.map Prod.fst := by
          rw [← h1]
          simpa using hnd'.1
        simp only [beq_iff_eq]
        intro hcontra
        rw [hcontra] at hin
        exact hout hin
      rw [hrest, List.append_nil]
      split
      · simp [mkRecord]
      · simp
    · have hne : ty' ≠ ty := by
        intro hcontra
        have : ty ∈ rest.map Prod.fst := List.mem_map.mpr ⟨(ty, sigs), htl, rfl⟩
        rw [hcontra] at hnd'
        exact hnd'.1 this
      have hhead : (if 0 < countMatching sigs' code.data then
            [mkRecord fp nm ty' (countMatching sigs' code.data) code]
          else []).filter (fun r => r.pattern_type == ty) = [] := by
        split
        · simp [mkRecord, hne]
        · simp
      rw [hhead, List.nil_append]
      exact ih hnd'.2 ty sigs htl

/-- Claim C1: for every method body and pattern category, when k signatures
of the category match the body (k at least 1) the classifier emits for
that method exactly one record of that category, with matches k and
confidence min of 0.3 plus 0.2 times k and 1; when no signature
matches, no record of that category is emitted.  (Within each concrete
category the signature list has no duplicates, so the loop count is
the number of distinct matching signatures.) -/
theorem classifier_one_record_per_category :
    ∀ (fp nm code ty : String) (sigs : List Sig), (ty, sigs) ∈ patterns →
      sigs.Nodup ∧
      (mkRecord fp nm ty (countMatching sigs code.data) code).confidence =
        min ((3 : ℚ)/10 + (countMatching sigs code.data : ℚ) * (2/10)) 1 ∧
      (mkRecord fp nm ty (countMatching sigs code.data) code).«matches» =
        countMatching sigs code.data ∧
      ((classifyMethod patterns fp nm code).filter (fun r => r.pattern_type == ty) =
        if 0 < countMatching sigs code.data then
          [mkRecord fp nm ty (countMatching sigs code.data) code]
        else []) := by
  intro fp nm code ty sigs hmem
  have hnodup : ∀ e ∈ patterns, (e.2 : List Sig).Nodup := by decide
  exact ⟨hnodup (ty, sigs) hmem, rfl, rfl,
    classifyMethod_filter patterns fp nm code (by decide) ty sigs hmem⟩

theorem classifier_one_record_per_category_witness :
    am_sigs.Nodup ∧
    (mkRecord "A.java" "m" "array_manipulation" (countMatching am_sigs "".data) "").confidence =
      min ((3 : ℚ)/10 + (countMatching am_sigs "".data : ℚ) * (2/10)) 1 ∧
    (mkRecord "A.java" "m" "array_manipulation" (countMatching am_sigs "".data) "").«matches» =
      countMatching am_sigs "".data ∧
    ((classifyMethod patterns "A.java" "m" "").filter
        (fun r => r.pattern_type == "array_manipulation") =
      if 0 < countMatching am_sigs "".data then
        [mkRecord "A.java" "m" "array_manipulation" (countMatching am_sigs "".data) ""]
      else []) :=
  classifier_one_record_per_category "A.java" "m" "" "array_manipulation" am_sigs (by decide)

-- The confidence formula.

theorem confidence_cases (k : Nat) :
    (k = 1 → min ((3:ℚ)/10 + (k:ℚ) * (2/10)) 1 = 1/2) ∧
    (k = 2 → min ((3:ℚ)/10 + (k:ℚ) * (2/10)) 1 = 7/10) ∧
    (k = 3 → min ((3:ℚ)/10 + (k:ℚ) * (2/10)) 1 = 9/10) ∧
    (4 ≤ k → min ((3:ℚ)/10 + (k:ℚ) * (2/10)) 1 = 1) ∧
    (1 ≤ k → (1:ℚ)/2 ≤ min ((3:ℚ)/10 + (k:ℚ) * (2/10)) 1) := by
  refine ⟨?_, ?_, ?_, ?_, ?_⟩
  · rintro rfl; norm_num [min_def]
  · rintro rfl; norm_num [min_def]
  · rintro rfl; norm_num [min_def]
  · intro h4
    have hc : (4:ℚ) ≤ (k:ℚ) := by exact_mod_cast h4
    have hmul : (4:ℚ) * (2/10) ≤ (k:ℚ) * (2/10) :=
      mul_le_mul_of_nonneg_right hc (by norm_num)
    rw [min_eq_right (by linarith)]
  · intro h1
    have hc : (1:ℚ) ≤ (k:ℚ) := by exact_mod_cast h1
    have hmul : (1:ℚ) * (2/10) ≤ (k:ℚ) * (2/10) :=
      mul_le_mul_of_nonneg_right hc (by norm_num)
    refine le_min (by linarith) (by norm_num)

theorem record_confidence_shape {fp nm code : String} {r : ClassificationRecord}
    (h : r ∈ classifyMethod patterns fp nm code) :
    (1:ℚ)/2 ≤ r.confidence ∧
      (r.confidence = 1/2 ∨ r.confidence = 7/10 ∨ r.confidence = 9/10 ∨ r.confidence = 1) := by
  obtain ⟨ty, k, hk, rfl⟩ := classifyMethod_record_shape h
  obtain ⟨c1, c2, c3, c4, c5⟩ := confidence_cases k
  have hcase : k = 1 ∨ k = 2 ∨ k = 3 ∨ 4 ≤ k := by omega
  constructor
  · exact c5 hk
  · show min ((3:ℚ)/10 + (k:ℚ) * (2/10)) 1 = 1/2 ∨ _ ∨ _ ∨ _
    rcases hcase with h | h | h | h
    · exact Or.inl (c1 h)
    · exact Or.inr (Or.inl (c2 h))
    · exact Or.inr (Or.inr (Or.inl (c3 h)))
    · exact Or.inr (Or.inr (Or.inr (c4 h)))

/-- Claim C2 amended: the saturating confidence score of the classifier
gives 0.5 for one matching signature, 0.7 for two, 0.9 for three, and
is clamped at 1.0 only from four matching signatures on. -/
theorem confidence_ladder :
    ∀ (fp nm code : String) (r : ClassificationRecord),
      r ∈ classifyMethod patterns fp nm code →
      (r.«matches» = 1 → r.confidence = 1/2) ∧
      (r.«matches» = 2 → r.confidence = 7/10) ∧
      (r.«matches» = 3 → r.confidence = 9/10) ∧
      (4 ≤ r.«matches» → r.confidence = 1) := by
  intro fp nm code r h
  obtain ⟨ty, k, hk, rfl⟩ := classifyMethod_record_shape h
  obtain ⟨c1, c2, c3, c4, _⟩ := confidence_cases k
  exact ⟨c1, c2, c3, c4⟩

/-- A method body in which exactly three signatures of the category
mathematical_computation match (Math.max, a calculate call, a compute
call). -/
def body3 : String := "Math.max(a, b); calculate(x); compute(y);"

/-- Claim C2 counterexample: a body with exactly three matching signatures
in a category receives confidence 0.9, not the claimed ceiling 1.0. -/
theorem confidence_ladder_counterexample :
    ("mathematical_computation", mc_sigs) ∈ patterns ∧
    countMatching mc_sigs body3.data = 3 ∧
    ((classifyMethod patterns "F.java" "m" body3).filter
        (fun r => r.pattern_type == "mathematical_computation")) =
      [mkRecord "F.java" "m" "mathematical_computation" 3 body3] ∧
    (mkRecord "F.java" "m" "mathematical_computation" 3 body3).«matches» = 3 ∧
    (mkRecord "F.java" "m" "mathematical_computation" 3 body3).confidence = 9/10 ∧
    (9 : ℚ)/10 ≠ 1 := by
  refine ⟨by decide, by decide, rfl, rfl, ?_, by norm_num⟩
  show min ((3:ℚ)/10 + ((3:Nat):ℚ) * (2/10)) 1 = 9/10
  exact (confidence_cases 3).2.2.1 rfl

theorem confidence_ladder_witness :
    ((mkRecord "F.java" "m" "mathematical_computation" 3 body3).«matches» = 1 →
      (mkRecord "F.java" "m" "mathematical_computation" 3 body3).confidence = 1/2) ∧
    ((mkRecord "F.java" "m" "mathematical_computation" 3 body3).«matches» = 2 →
      (mkRecord "F.java" "m" "mathematical_computation" 3 body3).confidence = 7/10) ∧
    ((mkRecord "F.java" "m" "mathematical_computation" 3 body3).«matches» = 3 →
      (mkRecord "F.java" "m" "mathematical_computation" 3 body3).confidence = 9/10) ∧
    (4 ≤ (mkRecord "F.java" "m" "mathematical_computation" 3 body3).«matches» →
      (mkRecord "F.java" "m" "mathematical_computation" 3 body3).confidence = 1) :=
  confidence_ladder "F.java" "m" body3
    (mkRecord "F.java" "m" "mathematical_computation" 3 body3)
    (by
      have hf : (classifyMethod patterns "F.java" "m" body3).filter
          (fun r => r.pattern_type == "mathematical_computation") =
          [mkRecord "F.java" "m" "mathematical_computation" 3 body3] := rfl
      have hm : mkRecord "F.java" "m" "mathematical_computation" 3 body3 ∈
          (classifyMethod patterns "F.java" "m" body3).filter
            (fun r => r.pattern_type == "mathematical_computation") := by
        rw [hf]
        exact List.mem_singleton_self _
      exact List.mem_of_mem_filter hm)

/-- Claim C10: every record the classifier emits has confidence at least 0.5
and in fact one of 0.5, 0.7, 0.9, 1.0; consequently the low band
(confidence below 0.5) of the confidence distribution is zero for
every corpus whose records come from the classifier. -/
theorem low_confidence_band_empty :
    (∀ (fp nm code : String) (r : ClassificationRecord),
        r ∈ classifyMethod patterns fp nm code →
        (1:ℚ)/2 ≤ r.confidence ∧
          (r.confidence = 1/2 ∨ r.confidence = 7/10 ∨ r.confidence = 9/10 ∨
            r.confidence = 1)) ∧
    (∀ l : List ClassificationRecord,
        (∀ r ∈ l, ∃ fp nm code, r ∈ classifyMethod patterns fp nm code) →
        (confidence_stats l).2.2 = 0) := by
  constructor
  · intro fp nm code r h
    exact record_confidence_shape h
  · intro l hl
    simp only [confidence_stats]
    rw [List.countP_eq_zero]
    intro r hr
    obtain ⟨fp, nm, code, hmem⟩ := hl r hr
    have hhalf := (record_confidence_shape hmem).1
    simp only [decide_eq_true_eq]
    intro hcontra
    linarith

theorem low_confidence_band_empty_witness :
    (1:ℚ)/2 ≤ (mkRecord "F.java" "m" "mathematical_computation" 3 body3).confidence ∧
      ((mkRecord "F.java" "m" "mathematical_computation" 3 body3).confidence = 1/2 ∨
       (mkRecord "F.java" "m" "mathematical_computation" 3 body3).confidence = 7/10 ∨
       (mkRecord "F.java" "m" "mathematical_computation" 3 body3).confidence = 9/10 ∨
       (mkRecord "F.java" "m" "mathematical_computation" 3 body3).confidence = 1) :=
  low_confidence_band_empty.1 "F.java" "m" body3
    (mkRecord "F.java" "m" "mathematical_computation" 3 body3)
    (by
      have hf : (classifyMethod patterns "F.java" "m" body3).filter
          (fun r => r.pattern_type == "mathematical_computation") =
          [mkRecord "F.java" "m" "mathematical_computation" 3 body3] := rfl
      have hm : mkRecord "F.java" "m" "mathematical_computation" 3 body3 ∈
          (classifyMethod patterns "F.java" "m" body3).filter
            (fun r => r.pattern_type == "mathematical_computation") := by
        rw [hf]
        exact List.mem_singleton_self _
      exact List.mem_of_mem_filter hm)

-- Case sensitivity of the two catalog use modes.

/-- A StringBuilder declaration written entirely in upper case. -/
def tUpper : String := "STRINGBUILDER SB = NEW STRINGBUILDER"

/-- The same text in its usual Java casing: a letter-for-letter case
variant of tUpper. -/
def tMixed : String := "StringBuilder sb = new StringBuilder"

/-- Claim C3 counterexample: the line-level counter is not case-insensitive.
On the upper-case variant of a StringBuilder declaration the per-line
search and the whole-file occurrence count of the scanner catalog (no
ignore-case flag) find nothing, while on the mixed-case variant of the
same text they do — so their evaluation distinguishes inputs differing
only in letter case — whereas the per-method evaluation of the
classifier (ignore-case flag set) matches both variants alike. -/
theorem case_insensitive_everywhere_counterexample :
    countMatching sp_sigs tUpper.data = 1 ∧
    countMatching sp_sigs tMixed.data = 1 ∧
    [lits "StringBuilder"] ∈ scan_string_ops_sigs ∧
    sigSearch true [lits "StringBuilder"] tUpper.data = true ∧
    sigSearch false [lits "StringBuilder"] tUpper.data = false ∧
    pattern_loc_lines [tUpper.data] = 0 ∧
    pattern_loc_lines [tMixed.data] = 1 ∧
    findallCount false [lits "StringBuilder"] tUpper.data = 0 ∧
    findallCount false [lits "StringBuilder"] tMixed.data = 2 := by
  decide

/-- Claim C3 amended: only the per-method match of the classifier
carries the ignore-case flag; the whole-file occurrence count
and per-line search are evaluated case-sensitively, distinguishing
case variants of text that the classifier treats alike. -/
theorem classifier_ci_scanner_cs :
    countMatching sp_sigs tUpper.data = countMatching sp_sigs tMixed.data ∧
    0 < countMatching sp_sigs tUpper.data ∧
    lineHasPattern tUpper.data = false ∧
    lineHasPattern tMixed.data = true ∧
    scanFileCounts tUpper.data (initProj "Project 1") = initProj "Project 1" ∧
    lookupPat (scanFileCounts tMixed.data (initProj "Project 1")).patterns "string_ops" = 2 := by
  decide

-- Top-N selection by confidence.

theorem confGe_total : ∀ a b : ClassificationRecord, confGe a b || confGe b a := by
  intro a b
  simp only [confGe, Bool.or_eq_true, decide_eq_true_eq]
  exact (le_total b.confidence a.confidence)

theorem confGe_trans : ∀ a b c : ClassificationRecord,
    confGe a b → confGe b c → confGe a c := by
  intro a b c h1 h2
  simp only [confGe, decide_eq_true_eq] at h1 h2 ⊢
  exact le_trans h2 h1

theorem mergeSort_filter_tie (l : List ClassificationRecord) (c : ℚ) :
    (l.mergeSort confGe).filter (fun r => r.confidence == c) =
      l.filter (fun r => r.confidence == c) := by
  set p : ClassificationRecord → Bool := fun r => r.confidence == c with hp
  have hpair : (l.filter p).Pairwise (fun a b => confGe a b) := by
    refine List.pairwise_of_forall_mem_list ?_
    intro a ha b hb
    have ha' := List.of_mem_filter ha
    have hb' := List.of_mem_filter hb
    simp only [hp, beq_iff_eq] at ha' hb'
    simp only [confGe, decide_eq_true_eq, ha', hb']
    exact le_refl c
  have hsub : List.Sublist (l.filter p) (l.mergeSort confGe) :=
    List.sublist_mergeSort confGe_trans confGe_total hpair (List.filter_sublist l)
  have hsub2 : List.Sublist (l.filter p) ((l.mergeSort confGe).filter p) := by
    have := List.Sublist.filter p hsub
    rwa [List.filter_filter, show (fun a => p a && p a) = p from by
      funext a
      cases p a <;> rfl] at this
  refine (List.Sublist.eq_of_length hsub2 ?_).symm
  rw [← List.countP_eq_length_filter, ← List.countP_eq_length_filter]
  exact ((List.mergeSort_perm l confGe).countP_eq p).symm

/-- Claim C7: the top-patterns selection keeps at most 10 records, in weakly
decreasing confidence order, and records of equal confidence appear as
an initial segment of the equally-confident input records in input
order (the stable sort breaks ties by arrival order, first seen
first), so the selection is a deterministic function of the input
sequence. -/
theorem top_patterns_by_confidence_spec :
    ∀ l : List ClassificationRecord,
      (top_patterns_by_confidence l).length ≤ 10 ∧
      (top_patterns_by_confidence l).Pairwise
        (fun a b => b.confidence ≤ a.confidence) ∧
      ∀ c : ℚ, ∃ t : List ClassificationRecord,
        (top_patterns_by_confidence l).filter (fun r => r.confidence == c) ++ t =
          l.filter (fun r => r.confidence == c) := by
  intro l
  refine ⟨List.length_take_le 10 _, ?_, ?_⟩
  · have hs : (l.mergeSort confGe).Pairwise (fun a b => confGe a b) :=
      List.sorted_mergeSort confGe_trans confGe_total l
    have hs' : (l.mergeSort confGe).Pairwise (fun a b => b.confidence ≤ a.confidence) := by
      refine hs.imp ?_
      intro a b h
      simpa [confGe] using h
    exact List.Pairwise.sublist (List.take_sublist 10 _) hs'
  · intro c
    refine ⟨((l.mergeSort confGe).drop 10).filter (fun r => r.confidence == c), ?_⟩
    rw [top_patterns_by_confidence, ← List.filter_append, List.take_append_drop]
    exact mergeSort_filter_tie l c

-- Substring machinery for the business-context tagger.

theorem leadsWith_iff (n : List Char) : ∀ h : List Char,
    leadsWith n h = true ↔ ∃ t, n ++ t = h := by
  induction n with
  | nil => intro h; simp [leadsWith]
  | cons a as ih =>
    intro h
    cases h with
    | nil => simp [leadsWith]
    | cons b bs =>
      simp only [leadsWith, Bool.and_eq_true, beq_iff_eq, ih, List.cons_append]
      constructor
      · rintro ⟨rfl, t, rfl⟩
        exact ⟨t, rfl⟩
      · rintro ⟨t, ht⟩
        injection ht with h1 h2
        exact ⟨h1, t, h2⟩

theorem isSub_iff (n : List Char) : ∀ h : List Char,
    isSub n h = true ↔ ∃ u v, u ++ n ++ v = h := by
  intro h
  induction h with
  | nil =>
    cases n with
    | nil => simp [isSub, leadsWith]
    | cons a as => simp [isSub, leadsWith]
  | cons b bs ih =>
    simp only [isSub, Bool.or_eq_true, leadsWith_iff, ih]
    constructor
    · rintro (⟨t, ht⟩ | ⟨u, v, huv⟩)
      · exact ⟨[], t, by simpa using ht⟩
      · exact ⟨b :: u, v, by simpa using huv⟩
    · rintro ⟨u, v, huv⟩
      cases u with
      | nil =>
        left
        exact ⟨v, by simpa using huv⟩
      | cons c cu =>
        right
        simp only [List.cons_append] at huv
        injection huv with h1 h2
        exact ⟨cu, v, h2⟩

theorem sub_append_cases {t x y : List Char}
    (h : ∃ u v, u ++ t ++ v = x ++ y) :
    (∃ u v, u ++ t ++ v = x) ∨ (∃ u v, u ++ t ++ v = y) ∨
      (∃ t1 t2, t = t1 ++ t2 ∧ t1 ≠ [] ∧ t2 ≠ [] ∧
        (∃ u, u ++ t1 = x) ∧ ∃ v, t2 ++ v = y) := by
  obtain ⟨u, v, huv⟩ := h
  rw [List.append_assoc] at huv
  rcases List.append_eq_append_iff.mp huv with ⟨w, hx, hw⟩ | ⟨w, hu, hy⟩
  · rcases List.append_eq_append_iff.mp hw with ⟨w', hww, hv⟩ | ⟨w', ht, hyy⟩
    · left
      exact ⟨u, w', by rw [hx, hww, List.append_assoc]⟩
    · cases hw' : w' with
      | nil =>
        left
        refine ⟨u, [], ?_⟩
        rw [hw'] at ht
        rw [List.append_nil] at ht
        rw [hx, ht]
        simp
      | cons a as =>
        cases hwe : w with
        | nil =>
          right; left
          refine ⟨[], v, ?_⟩
          rw [hwe] at ht
          rw [List.nil_append] at ht
          rw [hyy, ht]
          simp
        | cons b bs =>
          right; right
          refine ⟨w, w', ht, by rw [hwe]; simp, by rw [hw']; simp, ⟨u, hx.symm⟩, ⟨v, hyy.symm⟩⟩
  · right; left
    refine ⟨w, v, ?_⟩
    rw [List.append_assoc, hy]

theorem sub_sep_split {t x y : List Char} (ht : t ≠ []) (hc : ',' ∉ t) (hs : ' ' ∉ t)
    (h : ∃ u v, u ++ t ++ v = x ++ ',' :: ' ' :: y) :
    (∃ u v, u ++ t ++ v = x) ∨ ∃ u v, u ++ t ++ v = y := by
  rcases sub_append_cases h with hx | hmid | ⟨t1, t2, heq, ht1, ht2, hpre, v', hsuf⟩
  · exact Or.inl hx
  · obtain ⟨u, v, huv⟩ := hmid
    cases u with
    | nil =>
      exfalso
      cases t with
      | nil => exact ht rfl
      | cons a as =>
        simp only [List.nil_append, List.cons_append] at huv
        injection huv with h1 h2
        exact hc (h1 ▸ List.mem_cons_self a as)
    | cons c cu =>
      simp only [List.cons_append] at huv
      injection huv with h1 h2
      cases cu with
      | nil =>
        exfalso
        cases t with
        | nil => exact ht rfl
        | cons a as =>
          simp only [List.nil_append, List.cons_append] at h2
          injection h2 with h3 h4
          exact hs (h3 ▸ List.mem_cons_self a as)
      | cons c2 cu2 =>
        simp only [List.cons_append] at h2
        injection h2 with h3 h4
        exact Or.inr ⟨cu2, v, h4⟩
  · exfalso
    cases t2 with
    | nil => exact ht2 rfl
    | cons a as =>
      simp only [List.cons_append] at hsuf
      injection hsuf with h1 h2
      refine hc ?_
      rw [heq, h1]
      exact List.mem_append_right t1 (List.mem_cons_self _ _)

theorem mem_sub_join : ∀ (S : List String) (t : String), t ∈ S →
    isSub t.data (joinComma S).data = true := by
  intro S
  induction S with
  | nil => intro t htm; cases htm
  | cons s rest ih =>
    intro t htm
    cases rest with
    | nil =>
      have hts : t = s := by simpa using htm
      rw [hts, show joinComma [s] = s from rfl]
      exact (isSub_iff _ _).mpr ⟨[], [], by simp⟩
    | cons r rs =>
      rcases List.mem_cons.mp htm with rfl | hmem
      · rw [show joinComma (t :: r :: rs) = t ++ ", " ++ joinComma (r :: rs) from rfl]
        refine (isSub_iff _ _).mpr ⟨[], (", " ++ joinComma (r :: rs)).data, ?_⟩
        simp [List.append_assoc]
      · obtain ⟨u, v, huv⟩ := (isSub_iff _ _).mp (ih t hmem)
        rw [show joinComma (s :: r :: rs) = s ++ ", " ++ joinComma (r :: rs) from rfl]
        refine (isSub_iff _ _).mpr ⟨(s ++ ", ").data ++ u, v, ?_⟩
        simp only [List.append_assoc, huv, String.data_append]

theorem sub_join {t : List Char} (ht : t ≠ []) (hc : ',' ∉ t) (hs : ' ' ∉ t) :
    ∀ S : List String, isSub t (joinComma S).data = true →
      ∃ s ∈ S, isSub t s.data = true := by
  intro S
  induction S with
  | nil =>
    intro h
    exfalso
    have hdat : (joinComma []).data = [] := rfl
    rw [hdat] at h
    cases t with
    | nil => exact ht rfl
    | cons a as => simp [isSub, leadsWith] at h
  | cons s rest ih =>
    intro h
    cases rest with
    | nil =>
      exact ⟨s, List.mem_singleton_self s, by rwa [show joinComma [s] = s from rfl] at h⟩
    | cons r rs =>
      have hdata : (joinComma (s :: r :: rs)).data =
          s.data ++ ',' :: ' ' :: (joinComma (r :: rs)).data := by
        rw [show joinComma (s :: r :: rs) = s ++ ", " ++ joinComma (r :: rs) from rfl]
        simp
      rw [hdata] at h
      rcases sub_sep_split ht hc hs ((isSub_iff _ _).mp h) with h1 | h2
      · exact ⟨s, List.mem_cons_self _ _, (isSub_iff _ _).mpr h1⟩
      · obtain ⟨s', hs', hsub⟩ := ih ((isSub_iff _ _).mpr h2)
        exact ⟨s', List.mem_cons_of_mem _ hs', hsub⟩

-- The business-context tagger.

theorem bool_eq_of_iff {a b : Bool} (h : a = true ↔ b = true) : a = b := by
  cases a <;> cases b <;> simp_all

theorem vocab_facts :
    ∀ kw ∈ business_keywords, kw.data ≠ [] ∧ ',' ∉ kw.data ∧ ' ' ∉ kw.data := by
  decide

theorem vocab_no_mutual_sub :
    ∀ kw ∈ business_keywords, ∀ s ∈ business_keywords,
      isSub kw.data s.data = true → kw = s := by
  decide

theorem vocab_lower : ∀ s ∈ business_keywords, pyLower s = s := by
  decide

theorem pyLower_append (a b : String) : pyLower (a ++ b) = pyLower a ++ pyLower b := by
  apply String.ext
  simp [pyLower]

theorem pyLower_join (S : List String) (h : ∀ s ∈ S, pyLower s = s) :
    pyLower (joinComma S) = joinComma S := by
  induction S with
  | nil => rfl
  | cons s rest ih =>
    cases rest with
    | nil => exact h s (List.mem_singleton_self s)
    | cons r rs =>
      have hs := h s (List.mem_cons_self _ _)
      have hrest := ih (fun x hx => h x (List.mem_cons_of_mem _ hx))
      show pyLower (s ++ ", " ++ joinComma (r :: rs)) = s ++ ", " ++ joinComma (r :: rs)
      rw [pyLower_append, pyLower_append, hs, hrest,
        show pyLower ", " = ", " from rfl]

theorem filter_sub_join (q : String → Bool) :
    business_keywords.filter
        (fun kw => isSub kw.data (joinComma (business_keywords.filter q)).data) =
      business_keywords.filter q := by
  apply List.filter_congr
  intro kw hkw
  apply bool_eq_of_iff
  constructor
  · intro hp
    obtain ⟨hne, hnc, hns⟩ := vocab_facts kw hkw
    obtain ⟨s, hsS, hsub⟩ := sub_join hne hnc hns _ hp
    have hsv : s ∈ business_keywords := (List.mem_filter.mp hsS).1
    have hkws : kw = s := vocab_no_mutual_sub kw hkw s hsv hsub
    rw [hkws]
    exact (List.mem_filter.mp hsS).2
  · intro hq
    exact mem_sub_join _ kw (List.mem_filter.mpr ⟨hkw, hq⟩)

theorem _get_business_context_eq (p : String) :
    _get_business_context p =
      if (business_keywords.filter (fun kw => isSub kw.data (pyLower p).data)).isEmpty
      then "general"
      else joinComma
        (business_keywords.filter (fun kw => isSub kw.data (pyLower p).data)) := rfl

/-- Claim C5: the business-context tagger is total (a pure function) and,
for every path, returns the comma-joined vocabulary terms occurring
case-insensitively in the path in vocabulary order (the filter keeps
the vocabulary order), the literal general when none occurs, and is
idempotent: applied to its own output it returns that output
unchanged. -/
theorem business_context_total_idempotent :
    ∀ p : String,
      (_get_business_context p =
        if (business_keywords.filter (fun kw => isSub kw.data (pyLower p).data)).isEmpty
        then "general"
        else joinComma
          (business_keywords.filter (fun kw => isSub kw.data (pyLower p).data))) ∧
      ((∀ kw ∈ business_keywords, isSub kw.data (pyLower p).data = false) →
        _get_business_context p = "general") ∧
      _get_business_context (_get_business_context p) = _get_business_context p := by
  intro p
  refine ⟨_get_business_context_eq p, ?_, ?_⟩
  · intro hall
    have hnil : business_keywords.filter (fun kw => isSub kw.data (pyLower p).data) = [] :=
      List.filter_eq_nil_iff.mpr (fun kw hkw => by simp [hall kw hkw])
    rw [_get_business_context_eq, hnil]
    rfl
  · set S := business_keywords.filter (fun kw => isSub kw.data (pyLower p).data) with hSdef
    by_cases hS : S.isEmpty
    · have h1 : _get_business_context p = "general" := by
        rw [_get_business_context_eq, ← hSdef, if_pos hS]
      rw [h1]
      rfl
    · have h1 : _get_business_context p = joinComma S := by
        rw [_get_business_context_eq, ← hSdef, if_neg hS]
      rw [h1]
      have hlow : pyLower (joinComma S) = joinComma S :=
        pyLower_join S (fun s hs => vocab_lower s (List.mem_filter.mp (hSdef ▸ hs)).1)
      rw [_get_business_context_eq (joinComma S), hlow, hSdef, filter_sub_join]
      have hS' : ¬((business_keywords.filter
          (fun kw => isSub kw.data (pyLower p).data)).isEmpty = true) := by
        rw [← hSdef]
        exact hS
      rw [if_neg hS']

theorem business_context_total_idempotent_witness :
    _get_business_context "x" = "general" :=
  (business_context_total_idempotent "x").2.1 (by decide)

end LeetCodeEval
